import Mathlib

/-!
Verification of the MeowLogger modular core (`modular_core.py`).

Strings are modelled as `List Char`.  Python regular-expression searches used
by the built-in processors are compiled to executable Lean matchers; each
matcher's doc comment names the regex it embeds.
-/

set_option maxRecDepth 4000

namespace MeowLog

/-- Python `\w` (ASCII fragment): letters, digits, underscore. -/
def isWordChar (c : Char) : Bool := c.isAlphanum || c = '_'

/-- Python `str.isdigit` over ASCII digits as used by `\d`. -/
def isDigitChar (c : Char) : Bool := c.isDigit

/-- Python whitespace, the `str.isspace()` set: this is both what
`str.strip()` removes and what regex `\s` matches in Python 3 `str`
patterns — `[ \t\n\r\v\f]`, the separators `\x1c`–`\x1f`, NEL, NBSP, and
the Unicode space separators. -/
def isPySpace (c : Char) : Bool :=
  c = ' ' || c = '\t' || c = '\n' || c = '\r' || c = '\x0b' || c = '\x0c' ||
  c = '\x1c' || c = '\x1d' || c = '\x1e' || c = '\x1f' ||
  c = '\u0085' || c = '\u00A0' || c = '\u1680' ||
  ('\u2000' ≤ c && c ≤ '\u200A') ||
  c = '\u2028' || c = '\u2029' || c = '\u202F' || c = '\u205F' ||
  c = '\u3000'

/-- `str.upper()` on our character lists. -/
def toUpperStr (s : List Char) : List Char := s.map Char.toUpper

/-- `str.lower()` on our character lists. -/
def toLowerStr (s : List Char) : List Char := s.map Char.toLower

/-- Case-insensitive test that `pat` (given uppercased) starts `s`. -/
def startsWithCI (pat s : List Char) : Bool :=
  decide (pat.length ≤ s.length) && toUpperStr (s.take pat.length) == pat

/-- `re.search` driver: does `p` hold at some suffix (match start position)? -/
def anySuffix (p : List Char → Bool) : List Char → Bool
  | [] => p []
  | c :: rest => p (c :: rest) || anySuffix p rest

/-- Executable substring test. -/
def containsSub (pat s : List Char) : Bool :=
  anySuffix (fun t => pat.isPrefixOf t) s

/-- Case-insensitive substring test (Python `pat in s` after lowering,
or a `re.I` search for a literal alternation member). -/
def containsCI (pat s : List Char) : Bool :=
  containsSub (toLowerStr pat) (toLowerStr s)

-- ==================== Log Level Parser ====================

/-- `re.search(r"\[(\w+)\]", msg)`: leftmost `[` followed by a nonempty
word-character run and `]`; the capture is the run.  (Greedy `\w+` with
backtracking is equivalent to taking the maximal run, since any shorter run
would be followed by a word character, never `]`.) -/
def bracketCapture : List Char → Option (List Char)
  | [] => none
  | c :: rest =>
    if c = '[' then
      let run := rest.takeWhile isWordChar
      if 0 < run.length &&
          (match rest.drop run.length with | ']' :: _ => true | _ => false) then
        some run
      else bracketCapture rest
    else bracketCapture rest

/-- `re.search(r"^(\w+):", msg)`: anchored nonempty word run followed by `:`. -/
def leadingColonCapture (s : List Char) : Option (List Char) :=
  let run := s.takeWhile isWordChar
  if 0 < run.length &&
      (match s.drop run.length with | ':' :: _ => true | _ => false) then
    some run
  else none

def levelKeywords : List (List Char) :=
  ["DEBUG".toList, "INFO".toList, "WARNING".toList, "ERROR".toList,
   "CRITICAL".toList, "TRACE".toList]

/-- `re.search(r"(DEBUG|INFO|WARNING|ERROR|CRITICAL|TRACE)", msg, re.I)`:
leftmost position at which one alternative (tried in order) matches; the
match is the original-case text of that keyword occurrence. -/
def keywordSearch : List Char → Option (List Char)
  | [] => none
  | c :: rest =>
    match levelKeywords.find? (fun k => startsWithCI k (c :: rest)) with
    | some k => some ((c :: rest).take k.length)
    | none => keywordSearch rest

namespace LogLevelParser

/-- `LogLevelParser.LEVEL_PATTERNS` compiled: the three recognizers in
declaration order, each returning the captured group of a successful search. -/
def patterns : List (List Char → Option (List Char)) :=
  [bracketCapture, leadingColonCapture, keywordSearch]

/-- `LogLevelParser.process`: first pattern that matches wins, captured text
uppercased; the result is the `"level"` value of the returned dict
(`{"level": "INFO"}` when no pattern matches). -/
def process (message : List Char) : List Char :=
  match patterns.findSome? (fun m => m message) with
  | some captured => toUpperStr captured
  | none => "INFO".toList

end LogLevelParser

-- ==================== Pattern Detector ====================

/-- `re.search(r"error|exception|failed", msg, re.I)` as a Boolean. -/
def errorPat (m : List Char) : Bool :=
  containsCI "error".toList m || containsCI "exception".toList m ||
    containsCI "failed".toList m

/-- `re.search(r"warning|warn|caution", msg, re.I)` as a Boolean. -/
def warningPat (m : List Char) : Bool :=
  containsCI "warning".toList m || containsCI "warn".toList m ||
    containsCI "caution".toList m

/-- `\d+\.?\d*\s*` followed by one of `units` (uppercased literals, compared
case-insensitively), at the start of `s`.  Greedy maximal runs are equivalent
to the backtracking search because digits, `.` and whitespace never begin a
unit literal. -/
def numberUnitAt (units : List (List Char)) (s : List Char) : Bool :=
  let d1 := s.takeWhile isDigitChar
  if d1.length = 0 then false
  else
    let r1 := s.drop d1.length
    let r2 := match r1 with
      | '.' :: t => t.dropWhile isDigitChar
      | _ => r1
    let r3 := r2.dropWhile isPySpace
    units.any (fun u => startsWithCI u r3)

/-- `re.search(r"(\d+\.?\d*)\s*(ms|seconds?|minutes?)", msg, re.I)` as a
Boolean: the optional plural `s` never affects whether a match exists. -/
def performancePat (m : List Char) : Bool :=
  anySuffix (numberUnitAt ["MS".toList, "SECOND".toList, "MINUTE".toList]) m

/-- `re.search(r"(\d+\.?\d*)\s*(MB|GB|KB)", msg, re.I)` as a Boolean. -/
def memoryPat (m : List Char) : Bool :=
  anySuffix (numberUnitAt ["MB".toList, "GB".toList, "KB".toList]) m

/-- `\d{1,3}\.` at the start of `s`: the whole digit run must have length
1–3 and be followed by `.`; returns the rest after the dot. -/
def ipGroup (s : List Char) : Option (List Char) :=
  let d := s.takeWhile isDigitChar
  if 1 ≤ d.length ∧ d.length ≤ 3 then
    match s.drop d.length with
    | '.' :: t => some t
    | _ => none
  else none

/-- `\d{1,3}\b` at the start of `s`. -/
def ipTail (s : List Char) : Bool :=
  let d := s.takeWhile isDigitChar
  decide (1 ≤ d.length ∧ d.length ≤ 3) &&
    (match s.drop d.length with | [] => true | c :: _ => ¬ isWordChar c)

/-- `(?:\d{1,3}\.){3}\d{1,3}\b` at the start of `s`. -/
def ipAt (s : List Char) : Bool :=
  match ipGroup s with
  | none => false
  | some s1 =>
    match ipGroup s1 with
    | none => false
    | some s2 =>
      match ipGroup s2 with
      | none => false
      | some s3 => ipTail s3

/-- Scan for `\b(?:\d{1,3}\.){3}\d{1,3}\b`, tracking whether the previous
character is a word character (for the leading `\b`). -/
def ipScan (prev : Bool) : List Char → Bool
  | [] => false
  | c :: rest => (!prev && ipAt (c :: rest)) || ipScan (isWordChar c) rest

/-- `re.search(r"\b(?:\d{1,3}\.){3}\d{1,3}\b", msg)` as a Boolean. -/
def ipAddressPat (m : List Char) : Bool := ipScan false m

/-- `https?://[^\s]+` at the start of `s` (case-sensitive, as in the source:
this is the one pattern compiled without `re.I`). -/
def urlAt (s : List Char) : Bool :=
  if ("http".toList).isPrefixOf s then
    let r := s.drop 4
    let r2 := match r with | 's' :: t => t | _ => r
    ("://".toList).isPrefixOf r2 &&
      (match r2.drop 3 with | c :: _ => ¬ isPySpace c | [] => false)
  else false

/-- `re.search(r"https?://[^\s]+", msg)` as a Boolean. -/
def urlPat (m : List Char) : Bool := anySuffix urlAt m

/-- `at line \d+` (case-insensitive) at the start of `s`. -/
def atLineAt (s : List Char) : Bool :=
  startsWithCI "AT LINE ".toList s &&
    (match s.drop 8 with | c :: _ => isDigitChar c | [] => false)

/-- `re.search(r"traceback|stack trace|at line \d+", msg, re.I)` as a
Boolean. -/
def stacktracePat (m : List Char) : Bool :=
  containsCI "traceback".toList m || containsCI "stack trace".toList m ||
    anySuffix atLineAt m

namespace PatternDetector

/-- `PatternDetector.self.patterns`: the named matchers in dict insertion
order. -/
def patterns : List (List Char × (List Char → Bool)) :=
  [("error".toList, errorPat),
   ("warning".toList, warningPat),
   ("performance".toList, performancePat),
   ("memory".toList, memoryPat),
   ("ip_address".toList, ipAddressPat),
   ("url".toList, urlPat),
   ("stacktrace".toList, stacktracePat)]

/-- `PatternDetector.process`: names whose matcher fires, in order; `None`
(here `none`) when the list is empty. -/
def process (message : List Char) : Option (List (List Char)) :=
  let detected := (patterns.filter (fun p => p.2 message)).map (fun p => p.1)
  if detected.isEmpty then none else some detected

end PatternDetector

-- ==================== Data model ====================

/-- `LogEntry`.  `extra_patterns` models the `"patterns"` key of
`extra_data`: `none` when the key is absent (entries are created with
`extra_data = None` by `log` — whose keyword arguments carry no `"patterns"`
key — and by `_handle_new_line`), `some ps` after the engine merges a
pattern-detector result.  Other `extra_data` keys are never consulted by the
pipeline, the statistics fold or the filters and are omitted. -/
structure LogEntry where
  timestamp : Nat
  level : List Char
  message : List Char
  file_path : Option (List Char) := none
  line_number : Option Nat := none
  extra_patterns : Option (List (List Char)) := none
deriving DecidableEq, Repr

-- ==================== Filters ====================

/-- A Python value appearing in a keyword-argument filter dict. -/
inductive FVal
  | vstr (s : List Char)
  | vnat (n : Nat)
deriving DecidableEq, Repr

/-- A `**filters` dict: association list in key insertion order
(kwargs keys are distinct). -/
abbrev Filters := List (List Char × FVal)

/-- `filters.get(k)` (kwargs keys are distinct, so first match is the
entry). -/
def fget : Filters → List Char → Option FVal
  | [], _ => none
  | q :: rest, k => if q.1 = k then some q.2 else fget rest k

/-- Python truthiness of a `dict.get` result: `None`, `""` and `0` are
falsy. -/
def truthy : Option FVal → Bool
  | none => false
  | some (.vstr s) => !s.isEmpty
  | some (.vnat n) => !(n == 0)

/-- Python `v == s` for a filter value against a `str` field (values of a
different runtime type compare unequal). -/
def pyEqStr (v : FVal) (s : List Char) : Bool :=
  match v with
  | .vstr t => t == s
  | .vnat _ => false

/-- Python `entry.file_path == v` where the field is `Optional[str]`:
`None` equals no string. -/
def pyEqOpt (v : FVal) (s : Option (List Char)) : Bool :=
  match v, s with
  | .vstr t, some u => t == u
  | _, _ => false

/-- `filters["search"].lower() in entry.message.lower()`.  (On a non-string
search value Python would raise `AttributeError`; that branch is unreachable
in every theorem below, which only involve string-valued or absent `search`
filters.) -/
def searchHit (v : FVal) (msg : List Char) : Bool :=
  match v with
  | .vstr s => containsSub (toLowerStr s) (toLowerStr msg)
  | .vnat _ => false

/-- One truthiness-guarded check `if filters.get(k) and <mismatch>: fail`:
the entry passes unless the looked-up value is truthy and disagrees. -/
def passes (v : Option FVal) (agree : FVal → Bool) : Bool :=
  match v with
  | some w => !truthy (some w) || agree w
  | none => true

/-- The filter predicate: `FileStorage._matches_filters`, and line for line
the same three truthiness-guarded checks that `MemoryStorage.retrieve`
applies inline with `continue`. -/
def matchesFilters (filters : Filters) (e : LogEntry) : Bool :=
  passes (fget filters "level".toList) (fun v => pyEqStr v e.level) &&
  passes (fget filters "search".toList) (fun v => searchHit v e.message) &&
  passes (fget filters "file_path".toList) (fun v => pyEqOpt v e.file_path)

/-- The only dict keys `retrieve` ever looks up: `"level"`, `"search"`,
`"file_path"`.  Every other key of the forwarded kwargs dict is dead
weight. -/
def filterKeyUsed (k : List Char) : Bool :=
  k == "level".toList || k == "search".toList || k == "file_path".toList

-- ==================== Memory Storage ====================

namespace MemoryStorage

/-- `deque(maxlen = max_entries).append(e)`: once the deque is full the
oldest (leftmost) element is evicted. -/
def store (max_entries : Nat) (entries : List LogEntry) (e : LogEntry) :
    List LogEntry :=
  let l := entries ++ [e]
  l.drop (l.length - max_entries)

/-- The retrieval loop over `reversed(self.entries)`: skip non-matching
entries, append matching ones, and break as soon as
`len(results) >= limit` — checked after each append, so `limit` here is the
remaining budget. -/
def collect (filters : Filters) : Nat → List LogEntry → List LogEntry
  | _, [] => []
  | budget, e :: rest =>
    if matchesFilters filters e then
      if budget ≤ 1 then [e]
      else e :: collect filters (budget - 1) rest
    else collect filters budget rest

/-- `MemoryStorage.retrieve(filters, limit)` (the Python default for
`limit` is 100, supplied explicitly by callers of this definition). -/
def retrieve (entries : List LogEntry) (filters : Filters) (limit : Nat) :
    List LogEntry :=
  collect filters limit entries.reverse

end MemoryStorage

-- ==================== File Storage ====================

/-- One raw line of the persisted file: either the `json.dumps` encoding of
an entry (the only thing `FileStorage.store` ever writes, and exactly the
lines on which the per-line `try` of `retrieve` succeeds), or a malformed
line whose parse raises.  The JSON encode/decode round-trip itself is
abstracted by this pairing. -/
inductive FileLine
  | valid (e : LogEntry)
  | malformed (raw : List Char)
deriving DecidableEq, Repr

/-- The per-line parse inside `FileStorage.retrieve`: `json.loads` plus
field extraction, `none` when it raises (the line is then skipped). -/
def parseLine : FileLine → Option LogEntry
  | .valid e => some e
  | .malformed _ => none

namespace FileStorage

/-- `lines[-limit * 2 :]`.  Python's `-0` is `0`, so with `limit = 0` the
slice is the whole list. -/
def tailWindow (limit : Nat) (lines : List FileLine) : List FileLine :=
  if limit = 0 then lines else lines.drop (lines.length - 2 * limit)

/-- The loop over `reversed(lines)`: parse each line, skipping ones that
raise; filter; append; break once `len(entries) >= limit` (checked after
the append, so `budget` is the remaining allowance). -/
def fileCollect (filters : Filters) : Nat → List FileLine → List LogEntry
  | _, [] => []
  | budget, l :: rest =>
    match parseLine l with
    | none => fileCollect filters budget rest
    | some e =>
      if matchesFilters filters e then
        if budget ≤ 1 then [e]
        else e :: fileCollect filters (budget - 1) rest
      else fileCollect filters budget rest

/-- `FileStorage.retrieve(filters, limit)` on an existing file whose raw
lines are `lines` (a missing file returns `[]` before this code runs). -/
def retrieve (lines : List FileLine) (filters : Filters) (limit : Nat) :
    List LogEntry :=
  fileCollect filters limit (tailWindow limit lines).reverse

end FileStorage

-- ==================== Engine: pipeline and statistics ====================

/-- A processor's returned dict, restricted to the two keys the engine
consults (`"level"`, `"patterns"`); `Option.none` at the call site models a
`None` / falsy result. -/
structure ProcResult where
  level : Option (List Char) := none
  patterns : Option (List (List Char)) := none

/-- `LogLevelParser` as a pipeline element: always returns
`{"level": ...}`. -/
def levelProcessor (e : LogEntry) : Option ProcResult :=
  some { level := some (LogLevelParser.process e.message) }

/-- `PatternDetector` as a pipeline element: `{"patterns": detected}` when
non-empty, else `None`. -/
def patternProcessor (e : LogEntry) : Option ProcResult :=
  match PatternDetector.process e.message with
  | some ps => some { patterns := some ps }
  | none => none

/-- The default chain installed by `MeowLogger.__init__`:
`[LogLevelParser(), PatternDetector()]`. -/
def defaultProcessors : List (LogEntry → Option ProcResult) :=
  [levelProcessor, patternProcessor]

/-- `entry.level in ("INFO", "DEBUG")`. -/
def lowInfo (lvl : List Char) : Bool :=
  lvl == "INFO".toList || lvl == "DEBUG".toList

/-- The per-processor merge in `MeowLogger._process_and_store`: a suggested
level is applied only while `entry.level` is `"INFO"` or `"DEBUG"`
("Do not override explicit higher-severity levels"); a patterns list is
written into `extra_data["patterns"]`. -/
def applyResult (e : LogEntry) (r : Option ProcResult) : LogEntry :=
  match r with
  | none => e
  | some res =>
    let e1 :=
      match res.level with
      | some l => if lowInfo e.level then { e with level := l } else e
      | none => e
    match res.patterns with
    | some ps => { e1 with extra_patterns := some ps }
    | none => e1

/-- The processor loop of `_process_and_store` over an arbitrary chain. -/
def runPipelineWith (procs : List (LogEntry → Option ProcResult))
    (e : LogEntry) : LogEntry :=
  procs.foldl (fun acc p => applyResult acc (p acc)) e

/-- The processor loop with the default chain. -/
def runPipeline (e : LogEntry) : LogEntry :=
  runPipelineWith defaultProcessors e

/-- The `stats` dict of `MeowLogger` (the `start_time` field is an opaque
timestamp irrelevant to the counters and omitted).  The two counter dicts
are association lists in key insertion order. -/
structure Stats where
  total_logs : Nat
  by_level : List (List Char × Nat)
  by_pattern : List (List Char × Nat)
deriving DecidableEq, Repr

/-- `d.get(k, 0)` on a dict held as an association list with distinct keys
(which is all a Python dict can be). -/
def dictGetD : List (List Char × Nat) → List Char → Nat
  | [], _ => 0
  | q :: rest, k => if q.1 = k then q.2 else dictGetD rest k

/-- `d[k] = d.get(k, 0) + 1`: update in place when the key is present
(Python-dict insertion order is preserved), append `(k, 1)` otherwise. -/
def dictBump : List (List Char × Nat) → List Char → List (List Char × Nat)
  | [], k => [(k, 1)]
  | q :: rest, k =>
    if q.1 = k then (q.1, q.2 + 1) :: rest else q :: dictBump rest k

/-- The statistics fold of `_process_and_store`, applied to the
post-pipeline entry. -/
def updateStats (s : Stats) (e : LogEntry) : Stats :=
  let s1 : Stats :=
    { total_logs := s.total_logs + 1,
      by_level := dictBump s.by_level e.level,
      by_pattern := s.by_pattern }
  match e.extra_patterns with
  | some ps => { s1 with by_pattern := ps.foldl dictBump s1.by_pattern }
  | none => s1

/-- `MeowLogger` state with its default memory backend
(`self.storage = MemoryStorage()`): `entries` in store order, capped at
`max_entries`. -/
structure LoggerState where
  stats : Stats
  max_entries : Nat
  entries : List LogEntry
deriving DecidableEq, Repr

namespace MeowLogger

/-- `MeowLogger._process_and_store`: run the pipeline, fold the statistics,
store the processed entry. -/
def processAndStore (st : LoggerState) (e : LogEntry) : LoggerState :=
  let e1 := runPipeline e
  { stats := updateStats st.stats e1,
    max_entries := st.max_entries,
    entries := MemoryStorage.store st.max_entries st.entries e1 }

/-- `MeowLogger.log(level, message, **kwargs)`: entry at the current time
with `level.upper()` (message coercion to `str` is identity here; the
kwargs dict holds no `"patterns"` key, so `extra_patterns` starts
`none`). -/
def log (st : LoggerState) (now : Nat) (level message : List Char) :
    LoggerState :=
  processAndStore st
    { timestamp := now, level := toUpperStr level, message := message }

/-- `MeowLogger._handle_new_line(file_path, line)`: watcher-origin entry
defaulted to level `"INFO"`. -/
def handleNewLine (st : LoggerState) (now : Nat)
    (file_path line : List Char) : LoggerState :=
  processAndStore st
    { timestamp := now, level := "INFO".toList, message := line,
      file_path := some file_path }

/-- `MeowLogger.get_logs(**filters)`: the whole kwargs dict is passed as the
`filters` argument of `storage.retrieve`, whose `limit` parameter keeps its
default of 100. -/
def get_logs (st : LoggerState) (filters : Filters) : List LogEntry :=
  MemoryStorage.retrieve st.entries filters 100

end MeowLogger

-- ==================== Filesystem model and File Watcher ====================

/-- A filesystem node: a regular file with its byte content (ASCII model:
one `Char` per byte, so `os.path.getsize` is the content length), or a
directory with the size `os.path.getsize` reports for it. -/
inductive FsNode
  | file (content : List Char)
  | dir (size : Nat)
deriving DecidableEq, Repr

/-- The filesystem: path → node. -/
abbrev Fs := List (List Char × FsNode)

def fsLookup (fs : Fs) (p : List Char) : Option FsNode :=
  (fs.find? (fun q => q.1 == p)).map (fun q => q.2)

/-- `os.path.exists`. -/
def pathExists (fs : Fs) (p : List Char) : Bool := (fsLookup fs p).isSome

/-- `os.path.isfile`. -/
def isFile (fs : Fs) (p : List Char) : Bool :=
  match fsLookup fs p with
  | some (.file _) => true
  | _ => false

/-- `os.path.isdir`. -/
def isDir (fs : Fs) (p : List Char) : Bool :=
  match fsLookup fs p with
  | some (.dir _) => true
  | _ => false

/-- `os.path.getsize`. -/
def getSize (fs : Fs) (p : List Char) : Nat :=
  match fsLookup fs p with
  | some (.file c) => c.length
  | some (.dir n) => n
  | none => 0

/-- `d[k] = v` on a path → offset dict: update in place when the key is
present (insertion order preserved), append otherwise. -/
def dictSetNat : List (List Char × Nat) → List Char → Nat →
    List (List Char × Nat)
  | [], k, v => [(k, v)]
  | q :: rest, k, v =>
    if q.1 = k then (q.1, v) :: rest else q :: dictSetNat rest k v

/-- `FileWatcher` state: the `watched_files` path → `last_position` dict and
the registered handlers (identified by registration tokens, in registration
order). -/
structure FileWatcher where
  watched_files : List (List Char × Nat)
  handlers : List Nat
deriving DecidableEq, Repr

namespace FileWatcher

/-- `FileWatcher.watch_file`: register an existing path at its current size;
no-op otherwise. -/
def watch_file (fs : Fs) (w : FileWatcher) (file_path : List Char) :
    FileWatcher :=
  if pathExists fs file_path then
    { w with watched_files :=
        dictSetNat w.watched_files file_path (getSize fs file_path) }
  else w

/-- Last path component (after the final `/`). -/
def lastComponent (p : List Char) : List Char :=
  (p.reverse.takeWhile (fun c => c ≠ '/')).reverse

/-- Whether a name matches the default glob pattern `*.log`. -/
def matchesLogGlob (name : List Char) : Bool :=
  ("gol.".toList).isPrefixOf name.reverse

/-- Whether `p` lies strictly under directory `d`. -/
def isUnder (d p : List Char) : Bool :=
  (d ++ ['/']).isPrefixOf p

/-- `Path(dir).glob("**/*.log")`: every path in the filesystem strictly
under `dir` whose final component matches `*.log` (the recursive glob also
yields matching directories; `watch_file` registers whatever exists). -/
def globLog (fs : Fs) (dir : List Char) : List (List Char) :=
  (fs.filter (fun q => isUnder dir q.1 && matchesLogGlob (lastComponent q.1))).map
    (fun q => q.1)

/-- `FileWatcher.watch_directory` with the default pattern `*.log`. -/
def watch_directory (fs : Fs) (w : FileWatcher) (dir : List Char) :
    FileWatcher :=
  if pathExists fs dir && isDir fs dir then
    (globLog fs dir).foldl (watch_file fs) w
  else w

end FileWatcher

/-- One handler invocation observed during a poll: which handler, with which
path and line arguments. -/
structure LineEvent where
  handler : Nat
  path : List Char
  line : List Char
deriving DecidableEq, Repr

/-- Universal-newline decoding done by text mode (`open(path,
encoding="utf-8", errors="ignore")` leaves `newline` at its default
`None`): `"\r\n"` and a lone `"\r"` are both translated to `"\n"` in the
text the program sees. -/
def univNewlines : List Char → List Char
  | [] => []
  | '\r' :: '\n' :: rest => '\n' :: univNewlines rest
  | '\r' :: rest => '\n' :: univNewlines rest
  | c :: rest => c :: univNewlines rest

/-- Split the decoded text after every `'\n'`, keeping the terminator; a
final unterminated chunk is its own line. -/
def splitNl : List Char → List (List Char)
  | [] => []
  | c :: rest =>
    if c = '\n' then ['\n'] :: splitNl rest
    else
      match splitNl rest with
      | [] => [[c]]
      | l :: ls => (c :: l) :: ls

/-- `f.readlines()` on the freshly read bytes: universal-newline decoding,
then line splitting. -/
def splitKeepEnds (s : List Char) : List (List Char) :=
  splitNl (univNewlines s)

/-- Python `str.strip()`: remove leading and trailing whitespace. -/
def pyStrip (s : List Char) : List Char :=
  ((s.dropWhile isPySpace).reverse.dropWhile isPySpace).reverse

/-- The dispatch loop of `_watch_loop`: for each line of the new bytes,
`line = line.strip()`; if non-empty, call every registered handler in order
with `(file_path, line)`.  (Handler exceptions are printed and isolated;
the invocation itself still happens, so the event sequence is as below.) -/
def pollFileEvents (handlers : List Nat) (path newBytes : List Char) :
    List LineEvent :=
  (splitKeepEnds newBytes).foldl
    (fun acc l =>
      let line := pyStrip l
      if line.isEmpty then acc
      else acc ++ handlers.map (fun h => ⟨h, path, line⟩))
    []

/-- The per-file body of one `_watch_loop` iteration: if the path exists and
grew past `last_position`, read from `last_position` to the end, dispatch
the resulting lines, and advance the recorded position to the new size; in
every other case (missing path, unchanged, or *shrunk* file — and a
directory, where `open` raises into the `except` clause) the recorded
position is left unchanged and nothing is dispatched.  Returns the new
recorded position and the handler invocations. -/
def pollFile (fs : Fs) (handlers : List Nat) (path : List Char)
    (last_position : Nat) : Nat × List LineEvent :=
  match fsLookup fs path with
  | some (.file content) =>
    if last_position < content.length then
      (content.length, pollFileEvents handlers path (content.drop last_position))
    else (last_position, [])
  | _ => (last_position, [])

/-- `MeowLogger.watch(path)`: dispatch on `isfile` / `isdir`, raising
`ValueError(f"Path does not exist: {path}")` otherwise; the raise is
modelled as `Except.error` carrying the message. -/
def MeowLogger.watch (fs : Fs) (w : FileWatcher) (path : List Char) :
    Except (List Char) FileWatcher :=
  if isFile fs path then .ok (FileWatcher.watch_file fs w path)
  else if isDir fs path then .ok (FileWatcher.watch_directory fs w path)
  else .error ("Path does not exist: ".toList ++ path)

-- ==================== Sample data for concrete instances ====================

/-- A plain entry whose message triggers no recognizer and no pattern. -/
def sampleEntry (n : Nat) : LogEntry :=
  { timestamp := n, level := "INFO".toList, message := "plain text".toList }

-- ==================== Helper lemmas ====================

theorem matchesFilters_nil (e : LogEntry) : matchesFilters [] e = true := rfl

theorem collect_nil_filters :
    ∀ (l : List LogEntry) (b : Nat), 1 ≤ b →
      MemoryStorage.collect [] b l = l.take b := by
  intro l
  induction l with
  | nil => intro b _; simp [MemoryStorage.collect]
  | cons e rest ih =>
    intro b hb
    simp only [MemoryStorage.collect, matchesFilters_nil, if_true]
    by_cases h1 : b ≤ 1
    · have : b = 1 := le_antisymm h1 hb
      subst this
      simp
    · simp only [if_neg h1]
      rw [ih (b - 1) (by omega)]
      cases b with
      | zero => omega
      | succ n => simp [List.take_succ_cons]

theorem collect_mem_subset :
    ∀ (filters : Filters) (b : Nat) (l : List LogEntry) (e : LogEntry),
      e ∈ MemoryStorage.collect filters b l → e ∈ l := by
  intro filters b l
  induction l generalizing b with
  | nil => intro e h; simp [MemoryStorage.collect] at h
  | cons x rest ih =>
    intro e h
    simp only [MemoryStorage.collect] at h
    by_cases hm : matchesFilters filters x
    · simp only [hm, if_true] at h
      by_cases hb : b ≤ 1
      · simp only [hb, if_true, List.mem_singleton] at h
        simp [h]
      · simp only [hb, if_false, List.mem_cons] at h
        rcases h with h | h
        · simp [h]
        · exact List.mem_cons_of_mem x (ih (b - 1) e h)
    · simp only [hm, if_false] at h
      exact List.mem_cons_of_mem x (ih b e h)

theorem collect_length_le :
    ∀ (filters : Filters) (b : Nat) (l : List LogEntry), 1 ≤ b →
      (MemoryStorage.collect filters b l).length ≤ b := by
  intro filters b l
  induction l generalizing b with
  | nil => intro _; simp [MemoryStorage.collect]
  | cons x rest ih =>
    intro hb
    simp only [MemoryStorage.collect]
    by_cases hm : matchesFilters filters x
    · simp only [hm, if_true]
      by_cases h1 : b ≤ 1
      · simp only [h1, if_true, List.length_singleton]; omega
      · simp only [h1, if_false, List.length_cons]
        have := ih (b - 1) (by omega)
        omega
    · simp only [hm, if_false]
      exact ih b hb

theorem fileCollect_eq_collect :
    ∀ (filters : Filters) (b : Nat) (lines : List FileLine),
      FileStorage.fileCollect filters b lines =
        MemoryStorage.collect filters b (lines.filterMap parseLine) := by
  intro filters b lines
  induction lines generalizing b with
  | nil => rfl
  | cons l rest ih =>
    cases l with
    | valid e =>
      simp only [FileStorage.fileCollect, parseLine, List.filterMap_cons_some,
        MemoryStorage.collect]
      by_cases hm : matchesFilters filters e
      · simp only [hm, if_true]
        by_cases h1 : b ≤ 1
        · simp [h1]
        · simp [h1, ih]
      · simp [hm, ih]
    | malformed raw =>
      simp only [FileStorage.fileCollect, parseLine, List.filterMap_cons_none, ih]

theorem applyResult_message (e : LogEntry) (r : Option ProcResult) :
    (applyResult e r).message = e.message := by
  cases r with
  | none => rfl
  | some res =>
    simp only [applyResult]
    cases res.level with
    | none => cases res.patterns <;> rfl
    | some l =>
      cases res.patterns <;> cases h : lowInfo e.level <;> simp [h]

theorem applyResult_level_frozen (e : LogEntry) (r : Option ProcResult)
    (h : lowInfo e.level = false) :
    (applyResult e r).level = e.level := by
  cases r with
  | none => rfl
  | some res =>
    simp only [applyResult]
    cases res.level with
    | none => cases res.patterns <;> rfl
    | some l => cases res.patterns <;> simp [h]

theorem runPipelineWith_level_frozen (procs : List (LogEntry → Option ProcResult)) :
    ∀ (e : LogEntry), lowInfo e.level = false →
      (runPipelineWith procs e).level = e.level := by
  induction procs with
  | nil => intro e _; rfl
  | cons p rest ih =>
    intro e h
    have hstep : (applyResult e (p e)).level = e.level :=
      applyResult_level_frozen e (p e) h
    simp only [runPipelineWith, List.foldl_cons]
    have := ih (applyResult e (p e)) (by rw [hstep]; exact h)
    simpa [runPipelineWith, hstep] using this

theorem applyResult_levelProc (e : LogEntry) :
    applyResult e (levelProcessor e) =
      if lowInfo e.level
      then { e with level := LogLevelParser.process e.message }
      else e := by
  simp only [applyResult, levelProcessor]

theorem applyResult_patternProc_level (e : LogEntry) :
    (applyResult e (patternProcessor e)).level = e.level := by
  unfold patternProcessor
  cases PatternDetector.process e.message with
  | none => rfl
  | some ps => simp [applyResult]

theorem applyResult_patternProc_extra (e : LogEntry) :
    (applyResult e (patternProcessor e)).extra_patterns =
      match PatternDetector.process e.message with
      | some ps => some ps
      | none => e.extra_patterns := by
  unfold patternProcessor
  cases PatternDetector.process e.message with
  | none => rfl
  | some ps => simp [applyResult]

theorem runPipeline_unfold (e : LogEntry) :
    runPipeline e =
      applyResult (applyResult e (levelProcessor e))
        (patternProcessor (applyResult e (levelProcessor e))) := by
  simp [runPipeline, runPipelineWith, defaultProcessors]

theorem runPipeline_level (e : LogEntry) :
    (runPipeline e).level =
      if lowInfo e.level
      then LogLevelParser.process e.message
      else e.level := by
  rw [runPipeline_unfold, applyResult_patternProc_level, applyResult_levelProc]
  cases h : lowInfo e.level <;> simp [h]

theorem runPipeline_message (e : LogEntry) :
    (runPipeline e).message = e.message := by
  rw [runPipeline_unfold, applyResult_message, applyResult_message]

theorem runPipeline_extra (e : LogEntry) :
    (runPipeline e).extra_patterns =
      match PatternDetector.process e.message with
      | some ps => some ps
      | none => e.extra_patterns := by
  rw [runPipeline_unfold]
  have hmsg : (applyResult e (levelProcessor e)).message = e.message :=
    applyResult_message e (levelProcessor e)
  rw [applyResult_patternProc_extra, hmsg, applyResult_levelProc]
  cases PatternDetector.process e.message <;> cases h : lowInfo e.level <;> simp [h]

theorem lowInfo_false_of_ne (lvl : List Char)
    (h1 : lvl ≠ "INFO".toList) (h2 : lvl ≠ "DEBUG".toList) :
    lowInfo lvl = false := by
  simp only [lowInfo, Bool.or_eq_false_iff, beq_eq_false_iff_ne, ne_eq]
  exact ⟨h1, h2⟩

theorem dictGetD_bump (d : List (List Char × Nat)) (k p : List Char) :
    dictGetD (dictBump d k) p =
      if p = k then dictGetD d k + 1 else dictGetD d p := by
  induction d with
  | nil =>
    by_cases hpk : p = k
    · simp [dictBump, dictGetD, hpk]
    · have hkp : ¬ k = p := fun h => hpk h.symm
      simp [dictBump, dictGetD, hpk, hkp]
  | cons q rest ih =>
    by_cases hqk : q.1 = k
    · simp only [dictBump, if_pos hqk, dictGetD]
      by_cases hqp : q.1 = p
      · have hpk : p = k := hqp ▸ hqk
        simp [hqp, hpk, hqk]
      · have hpk : ¬ p = k := by
          intro h
          exact hqp (by rw [hqk, h])
        have hkp : ¬ k = p := fun h => hqp (hqk.trans h)
        simp [hqp, hpk, hqk, hkp]
    · simp only [dictBump, if_neg hqk, dictGetD, ih]
      by_cases hqp : q.1 = p
      · have hpk : ¬ p = k := fun h => hqk (h ▸ hqp)
        simp [hqp, hpk]
      · simp [hqp]

theorem dictGetD_le_bump (d : List (List Char × Nat)) (k p : List Char) :
    dictGetD d p ≤ dictGetD (dictBump d k) p := by
  rw [dictGetD_bump]
  by_cases hpk : p = k
  · subst hpk; simp
  · simp [hpk]

theorem dictGetD_foldl_bump_not_mem (ks : List (List Char)) :
    ∀ (d : List (List Char × Nat)) (p : List Char), p ∉ ks →
      dictGetD (ks.foldl dictBump d) p = dictGetD d p := by
  induction ks with
  | nil => intro d p _; rfl
  | cons k rest ih =>
    intro d p hp
    have hpk : ¬ p = k := fun h => hp (h ▸ List.mem_cons_self k rest)
    have hpr : p ∉ rest := fun m => hp (List.mem_cons_of_mem k m)
    simp only [List.foldl_cons, ih (dictBump d k) p hpr, dictGetD_bump,
      if_neg hpk]

theorem dictGetD_foldl_bump_of_nodup (ks : List (List Char)) :
    ∀ (d : List (List Char × Nat)) (p : List Char), ks.Nodup → p ∈ ks →
      dictGetD (ks.foldl dictBump d) p = dictGetD d p + 1 := by
  induction ks with
  | nil => intro d p _ hp; exact absurd hp (by simp)
  | cons k rest ih =>
    intro d p hnd hp
    have hkr : k ∉ rest := (List.nodup_cons.mp hnd).1
    have hrest : rest.Nodup := (List.nodup_cons.mp hnd).2
    simp only [List.foldl_cons]
    rcases List.mem_cons.mp hp with hpk | hpr
    · subst hpk
      rw [dictGetD_foldl_bump_not_mem rest (dictBump d p) p hkr,
        dictGetD_bump, if_pos rfl]
    · have hpk : ¬ p = k := fun h => hkr (h ▸ hpr)
      rw [ih (dictBump d k) p hrest hpr, dictGetD_bump, if_neg hpk]

theorem dictGetD_le_foldl_bump (ks : List (List Char)) :
    ∀ (d : List (List Char × Nat)) (p : List Char),
      dictGetD d p ≤ dictGetD (ks.foldl dictBump d) p := by
  induction ks with
  | nil => intro d p; exact Nat.le_refl _
  | cons k rest ih =>
    intro d p
    simp only [List.foldl_cons]
    exact Nat.le_trans (dictGetD_le_bump d k p) (ih (dictBump d k) p)

theorem store_length (cap : Nat) (acc : List LogEntry) (e : LogEntry) :
    (MemoryStorage.store cap acc e).length = acc.length + 1 - (acc.length + 1 - cap) := by
  simp [MemoryStorage.store]

theorem store_foldl (cap : Nat) :
    ∀ (es acc : List LogEntry), acc.length ≤ cap →
      es.foldl (MemoryStorage.store cap) acc =
        (acc ++ es).drop (acc.length + es.length - cap) := by
  intro es
  induction es with
  | nil =>
    intro acc h
    simp only [List.foldl_nil, List.append_nil, List.length_nil, Nat.add_zero]
    rw [Nat.sub_eq_zero_of_le h, List.drop_zero]
  | cons e rest ih =>
    intro acc h
    have hst : MemoryStorage.store cap acc e =
        (acc ++ [e]).drop (acc.length + 1 - cap) := by
      simp [MemoryStorage.store]
    have hlen := store_length cap acc e
    have hle : (MemoryStorage.store cap acc e).length ≤ cap := by omega
    simp only [List.foldl_cons]
    rw [ih (MemoryStorage.store cap acc e) hle]
    rw [hlen, hst]
    rw [← List.drop_append_of_le_length
      (by simp only [List.length_append, List.length_singleton]; omega)]
    rw [List.drop_drop]
    have harr : (acc ++ [e]) ++ rest = acc ++ e :: rest := by simp
    rw [harr]
    congr 1
    simp only [List.length_cons]
    omega

theorem getLast?_drop_of_ne_nil {α : Type} (l : List α) (k : Nat)
    (h : l.drop k ≠ []) : (l.drop k).getLast? = l.getLast? := by
  conv_rhs => rw [← List.take_append_drop k l]
  rw [List.getLast?_append_of_ne_nil _ h]

theorem pollFileEvents_go (handlers : List Nat) (path : List Char) :
    ∀ (ls : List (List Char)) (acc : List LineEvent),
      ls.foldl
        (fun acc l =>
          let line := pyStrip l
          if line.isEmpty then acc
          else acc ++ handlers.map (fun hd => ⟨hd, path, line⟩)) acc =
      acc ++ ((ls.map pyStrip).filter (fun l => !l.isEmpty)).flatMap
        (fun line => handlers.map (fun hd => ⟨hd, path, line⟩)) := by
  intro ls
  induction ls with
  | nil => intro acc; simp
  | cons l rest ih =>
    intro acc
    simp only [List.foldl_cons, List.map_cons]
    by_cases hl : (pyStrip l).isEmpty
    · rw [List.filter_cons]
      simp only [hl]
      simp only [Bool.not_true, Bool.false_eq_true, if_false]
      exact ih acc
    · rw [List.filter_cons]
      simp only [hl, Bool.not_false, if_true, List.flatMap_cons, ← List.append_assoc]
      simp only [hl, Bool.false_eq_true, if_false]
      exact ih (acc ++ handlers.map (fun hd => ⟨hd, path, pyStrip l⟩))

theorem pollFileEvents_eq (handlers : List Nat) (path newBytes : List Char) :
    pollFileEvents handlers path newBytes =
      (((splitKeepEnds newBytes).map pyStrip).filter (fun l => !l.isEmpty)).flatMap
        (fun line => handlers.map (fun hd => ⟨hd, path, line⟩)) := by
  unfold pollFileEvents
  rw [pollFileEvents_go]
  simp

theorem univNewlines_cons_ne_cr (c : Char) (rest : List Char)
    (hc : ¬ c = '\r') :
    univNewlines (c :: rest) = c :: univNewlines rest := by
  rcases rest with _ | ⟨d, t⟩
  · simp [univNewlines, hc]
  · simp [univNewlines, hc]

theorem univNewlines_no_cr (l : List Char) (h : '\r' ∉ l) :
    univNewlines l = l := by
  induction l with
  | nil => rfl
  | cons c rest ih =>
    have hc : ¬ c = '\r' := fun e => h (e ▸ List.mem_cons_self c rest)
    have hrest : '\r' ∉ rest := fun m => h (List.mem_cons_of_mem c m)
    rw [univNewlines_cons_ne_cr c rest hc, ih hrest]

theorem splitNl_single (l : List Char) (h : '\n' ∉ l) :
    splitNl (l ++ ['\n']) = [l ++ ['\n']] := by
  induction l with
  | nil => rfl
  | cons c rest ih =>
    have hc : ¬ c = '\n' := fun e => h (e ▸ List.mem_cons_self c rest)
    have hrest : '\n' ∉ rest := fun m => h (List.mem_cons_of_mem c m)
    simp only [List.cons_append, splitNl, if_neg hc, List.append_eq]
    rw [ih hrest]

theorem splitKeepEnds_single (l : List Char) (hn : '\n' ∉ l)
    (hr : '\r' ∉ l) :
    splitKeepEnds (l ++ ['\n']) = [l ++ ['\n']] := by
  unfold splitKeepEnds
  rw [univNewlines_no_cr (l ++ ['\n'])
    (by
      intro hm
      rcases List.mem_append.mp hm with hm | hm
      · exact hr hm
      · simp at hm)]
  exact splitNl_single l hn

theorem pyStrip_append_newline (l : List Char) :
    pyStrip (l ++ ['\n']) = pyStrip l := by
  unfold pyStrip
  rw [List.dropWhile_append]
  by_cases h : (l.dropWhile isPySpace).isEmpty
  · have h0 : l.dropWhile isPySpace = [] := by
      simpa [List.isEmpty_iff] using h
    have h1 : List.dropWhile isPySpace ['\n'] = [] := rfl
    simp [h, h0, h1]
  · simp only [h, Bool.false_eq_true, if_false]
    rw [List.reverse_append]
    simp only [List.reverse_singleton, List.singleton_append]
    rw [List.dropWhile_cons_of_pos (by simp [isPySpace])]

-- ==================== Claim theorems ====================

/-- C6: the level parser applies three recognizers in order — bracketed
`[LEVEL]`, leading `LEVEL:`, then a bare keyword
`DEBUG|INFO|WARNING|ERROR|CRITICAL|TRACE` anywhere, case-insensitive — and
returns the first match's captured level uppercased, or `INFO` when none
match; in particular `"[ERROR] disk full"` yields `ERROR`,
`"WARNING: low memory"` yields `WARNING`, and `"nothing special here"`
yields `INFO`. -/
theorem C6_level_parser_recognizers_in_order :
    (∀ msg : List Char,
      LogLevelParser.process msg =
        match bracketCapture msg with
        | some w => toUpperStr w
        | none =>
          match leadingColonCapture msg with
          | some w => toUpperStr w
          | none =>
            match keywordSearch msg with
            | some w => toUpperStr w
            | none => "INFO".toList) ∧
    LogLevelParser.process "[ERROR] disk full".toList = "ERROR".toList ∧
    LogLevelParser.process "WARNING: low memory".toList = "WARNING".toList ∧
    LogLevelParser.process "nothing special here".toList = "INFO".toList := by
  refine ⟨fun msg => ?_, by decide, by decide, by decide⟩
  unfold LogLevelParser.process LogLevelParser.patterns
  cases h1 : bracketCapture msg with
  | some w => simp [List.findSome?, h1]
  | none =>
    cases h2 : leadingColonCapture msg with
    | some w => simp [List.findSome?, h1, h2]
    | none =>
      cases h3 : keywordSearch msg with
      | some w => simp [List.findSome?, h1, h2, h3]
      | none => simp [List.findSome?, h1, h2, h3]

/-- C1 (evaluation at the failing input): a watched file recorded at
`last_offset = 10` whose current content is the 5-byte `"hello"` — the
per-file poll body leaves the recorded offset at 10 (in particular it does
NOT reset it to 0 as the claim requires) and dispatches nothing, because
the only size comparison in the code is `current_size > last_position`. -/
theorem C1_shrunk_file_offset_unchanged :
    pollFile [("a.log".toList, FsNode.file "hello".toList)] [0] "a.log".toList 10 =
      (10, []) ∧ (10 : Nat) ≠ 0 :=
  ⟨rfl, by decide⟩

/-- C7 counterexample: the appended line `"  hello\n"` is delivered to the
handler as `"hello"` — `line.strip()` removes the leading whitespace too,
so the line content is NOT passed unchanged as the claim states. -/
theorem C7_counterexample_leading_whitespace :
    pollFileEvents [0] "app.log".toList "  hello\n".toList =
      [⟨0, "app.log".toList, "hello".toList⟩] ∧
    ("hello".toList : List Char) ≠ "  hello".toList :=
  ⟨rfl, by decide⟩

/-- C7 as amended: the watcher reads in text mode with universal newlines,
so the appended bytes are first decoded (`"\r\n"` and lone `"\r"` become
`"\n"`), then split after each `"\n"`; each line is `str.strip()`ped,
removing ALL leading and trailing whitespace; every line that is non-empty
after stripping triggers exactly one invocation per registered handler, in
registration order, with the file's path and the stripped text; lines that
strip to empty trigger none.  One appended line free of both terminators
therefore causes exactly one invocation per handler, carrying its stripped
text — while `"a\rb\n"` is two program lines, dispatched as `"a"` then
`"b"`. -/
theorem C7_line_dispatch_amended :
    (∀ (handlers : List Nat) (path newBytes : List Char),
      pollFileEvents handlers path newBytes =
        (((splitNl (univNewlines newBytes)).map pyStrip).filter
            (fun l => !l.isEmpty)).flatMap
          (fun line => handlers.map (fun hd => ⟨hd, path, line⟩))) ∧
    (∀ (handlers : List Nat) (path l : List Char), '\n' ∉ l → '\r' ∉ l →
      (pyStrip l).isEmpty = false →
      pollFileEvents handlers path (l ++ ['\n']) =
        handlers.map (fun hd => ⟨hd, path, pyStrip l⟩)) ∧
    (pollFileEvents [0] "app.log".toList "a\rb\n".toList =
      [⟨0, "app.log".toList, "a".toList⟩,
       ⟨0, "app.log".toList, "b".toList⟩]) := by
  refine ⟨pollFileEvents_eq, ?_, rfl⟩
  intro handlers path l hnl hcr hne
  rw [pollFileEvents_eq, splitKeepEnds_single l hnl hcr]
  simp [pyStrip_append_newline, hne]

/-- C7 witness: the amended dispatch theorem at a concrete input. -/
theorem C7_line_dispatch_amended_witness :
    pollFileEvents [0, 1] "app.log".toList ("hi there".toList ++ ['\n']) =
      [0, 1].map (fun hd => ⟨hd, "app.log".toList, pyStrip "hi there".toList⟩) :=
  C7_line_dispatch_amended.2.1 [0, 1] "app.log".toList "hi there".toList
    (by decide) (by decide) (by decide)

/-- C3 counterexample: with `limit = 1` the tail window is the last 2 raw
lines; a file holding one valid record followed by two malformed lines
returns no entries, while the same file without the malformed lines returns
the valid record — a malformed line can reduce the count of valid entries
returned. -/
theorem C3_counterexample_malformed_displaces_valid :
    FileStorage.retrieve
        [FileLine.valid (sampleEntry 0), FileLine.malformed "oops".toList,
         FileLine.malformed "oops".toList] [] 1 = [] ∧
    FileStorage.retrieve [FileLine.valid (sampleEntry 0)] [] 1 =
      [sampleEntry 0] :=
  ⟨rfl, rfl⟩

/-- C3 as amended: during retrieval each malformed line is skipped without
raising, and the result is exactly the memory-backend collection (same
filters, newest first, up to `limit`) over the valid entries of the
`2 * limit`-line tail window; but the window is taken over RAW lines, so
malformed lines inside it occupy slots and can displace valid entries. -/
theorem C3_malformed_skipped_within_window :
    ∀ (lines : List FileLine) (filters : Filters) (limit : Nat),
      FileStorage.retrieve lines filters limit =
        MemoryStorage.collect filters limit
          ((FileStorage.tailWindow limit lines).reverse.filterMap parseLine) := by
  intro lines filters limit
  unfold FileStorage.retrieve
  exact fileCollect_eq_collect filters limit (FileStorage.tailWindow limit lines).reverse

/-- C4 counterexample: with `limit = 0` the break check `len(results) >=
limit` fires only AFTER the first append, so one stored entry is returned
even though "up to the limit" allows none (`take 0` of the reversed store
order is empty). -/
theorem C4_counterexample_limit_zero :
    MemoryStorage.retrieve [sampleEntry 1] [] 0 = [sampleEntry 1] ∧
    ([sampleEntry 1] : List LogEntry).reverse.take 0 = [] :=
  ⟨rfl, rfl⟩

/-- C4 as amended: for every POSITIVE limit, retrieval with an empty filter
set returns exactly the most recent entries up to the limit in strictly
reverse store order — for the memory backend over its retained entries, and
for the file backend over the entries whose records sit in the current
file. -/
theorem C4_retrieval_reverse_order_amended :
    (∀ (entries : List LogEntry) (limit : Nat), 1 ≤ limit →
      MemoryStorage.retrieve entries [] limit = entries.reverse.take limit) ∧
    (∀ (es : List LogEntry) (limit : Nat), 1 ≤ limit →
      FileStorage.retrieve (es.map FileLine.valid) [] limit =
        es.reverse.take limit) := by
  constructor
  · intro entries limit h
    unfold MemoryStorage.retrieve
    exact collect_nil_filters entries.reverse limit h
  · intro es limit h
    unfold FileStorage.retrieve
    rw [fileCollect_eq_collect]
    unfold FileStorage.tailWindow
    rw [if_neg (by omega : ¬ limit = 0)]
    rw [List.length_map, ← List.map_drop, ← List.map_reverse,
      List.filterMap_map]
    have hcomp : (parseLine ∘ FileLine.valid) = some := rfl
    rw [hcomp, List.filterMap_some,
      collect_nil_filters _ limit h, List.reverse_drop, List.take_take]
    by_cases hcase : 2 * limit ≤ es.length
    · have hmin : min limit (es.length - (es.length - 2 * limit)) = limit := by
        omega
      rw [hmin]
    · have hm : es.length - (es.length - 2 * limit) = es.length := by omega
      rw [hm]
      by_cases h2 : limit ≤ es.length
      · have hmin : min limit es.length = limit := by omega
        rw [hmin]
      · have hmin : min limit es.length = es.length := by omega
        rw [hmin]
        rw [List.take_of_length_le (by simp),
          List.take_of_length_le (by simp; omega)]

/-- C4 witness: the amended memory-backend retrieval at a concrete input. -/
theorem C4_retrieval_reverse_order_amended_witness :
    MemoryStorage.retrieve [sampleEntry 1, sampleEntry 2] [] 1 =
      ([sampleEntry 1, sampleEntry 2].reverse).take 1 :=
  C4_retrieval_reverse_order_amended.1 [sampleEntry 1, sampleEntry 2] 1
    (by decide)

/-- C5: for the memory backend with capacity `cap`, after storing more than
`cap` entries exactly the most recent `cap` are retained; every retrieve
result draws only from those retained entries (so the evicted oldest ones
are unrecoverable), and an unfiltered retrieve with a large enough limit
returns all retained entries, most recent first. -/
theorem C5_memory_capacity_eviction :
    ∀ (cap : Nat) (es : List LogEntry), cap < es.length →
      es.foldl (MemoryStorage.store cap) [] = es.drop (es.length - cap) ∧
      (es.foldl (MemoryStorage.store cap) []).length = cap ∧
      (∀ (filters : Filters) (limit : Nat) (e : LogEntry),
        e ∈ MemoryStorage.retrieve (es.foldl (MemoryStorage.store cap) [])
              filters limit →
        e ∈ es.drop (es.length - cap)) ∧
      MemoryStorage.retrieve (es.foldl (MemoryStorage.store cap) []) []
          es.length =
        (es.drop (es.length - cap)).reverse := by
  intro cap es h
  have hfold : es.foldl (MemoryStorage.store cap) [] =
      es.drop (es.length - cap) := by
    have hs := store_foldl cap es [] (by simp)
    simpa using hs
  refine ⟨hfold, ?_, ?_, ?_⟩
  · rw [hfold, List.length_drop]; omega
  · intro filters limit e hm
    rw [hfold] at hm
    unfold MemoryStorage.retrieve at hm
    have hsub := collect_mem_subset filters limit
      ((es.drop (es.length - cap)).reverse) e hm
    exact List.mem_reverse.mp hsub
  · rw [hfold]
    unfold MemoryStorage.retrieve
    rw [collect_nil_filters _ es.length (by omega)]
    apply List.take_of_length_le
    simp only [List.length_reverse, List.length_drop]
    omega

/-- C5 witness: capacity 2, three stores — the first entry is evicted. -/
theorem C5_memory_capacity_eviction_witness :
    [sampleEntry 1, sampleEntry 2, sampleEntry 3].foldl
        (MemoryStorage.store 2) [] = [sampleEntry 2, sampleEntry 3] := by
  have h := C5_memory_capacity_eviction 2
    [sampleEntry 1, sampleEntry 2, sampleEntry 3] (by decide)
  exact h.1.trans rfl

theorem store_getLast? (cap : Nat) (entries : List LogEntry) (e : LogEntry)
    (h : MemoryStorage.store cap entries e ≠ []) :
    (MemoryStorage.store cap entries e).getLast? = some e := by
  simp only [MemoryStorage.store] at h ⊢
  rw [getLast?_drop_of_ne_nil _ _ h]
  exact List.getLast?_concat entries

/-- C2: a level suggested by a processor overwrites the entry's level only
while that level is `"INFO"` or `"DEBUG"`; with the default chain the
post-pipeline level is the parsed level exactly in that case and the
creation level otherwise; in particular the entry stored by a direct `log`
call with an explicit level outside `{INFO, DEBUG}` keeps that
(uppercased) level through the whole pipeline pass. -/
theorem C2_level_non_downgrade :
    (∀ (e : LogEntry),
      (runPipeline e).level =
        if lowInfo e.level then LogLevelParser.process e.message
        else e.level) ∧
    (∀ (procs : List (LogEntry → Option ProcResult)) (e : LogEntry),
      lowInfo e.level = false →
      (runPipelineWith procs e).level = e.level) ∧
    (∀ (st : LoggerState) (now : Nat) (lvl msg : List Char),
      lowInfo (toUpperStr lvl) = false →
      ∀ e ∈ ((MeowLogger.log st now lvl msg).entries).getLast?,
        e.level = toUpperStr lvl) := by
  refine ⟨runPipeline_level, runPipelineWith_level_frozen, ?_⟩
  intro st now lvl msg hlow e hmem
  rw [Option.mem_def] at hmem
  have hent : (MeowLogger.log st now lvl msg).entries =
      MemoryStorage.store st.max_entries st.entries
        (runPipeline
          { timestamp := now, level := toUpperStr lvl, message := msg }) := rfl
  rw [hent] at hmem
  by_cases hne : MemoryStorage.store st.max_entries st.entries
      (runPipeline
        { timestamp := now, level := toUpperStr lvl, message := msg }) = []
  · rw [hne] at hmem
    simp at hmem
  · have hsome := (store_getLast? _ _ _ hne).symm.trans hmem
    have he : runPipeline
        { timestamp := now, level := toUpperStr lvl, message := msg } = e :=
      Option.some.inj hsome
    rw [← he]
    exact runPipelineWith_level_frozen defaultProcessors
      { timestamp := now, level := toUpperStr lvl, message := msg } hlow

/-- C2 witness: pipeline run at an explicit `"ERROR"` entry whose message
carries no level marker — the level is preserved. -/
theorem C2_level_non_downgrade_witness :
    (runPipelineWith defaultProcessors
        { timestamp := 0, level := "ERROR".toList,
          message := "all fine".toList }).level = "ERROR".toList :=
  C2_level_non_downgrade.2.1 defaultProcessors
    { timestamp := 0, level := "ERROR".toList, message := "all fine".toList }
    (by decide)

theorem processAndStore_stats (st : LoggerState) (e : LogEntry) :
    (MeowLogger.processAndStore st e).stats =
      updateStats st.stats (runPipeline e) := rfl

theorem updateStats_total (s : Stats) (e : LogEntry) :
    (updateStats s e).total_logs = s.total_logs + 1 := by
  unfold updateStats
  cases e.extra_patterns <;> rfl

theorem updateStats_by_level (s : Stats) (e : LogEntry) :
    (updateStats s e).by_level = dictBump s.by_level e.level := by
  unfold updateStats
  cases e.extra_patterns <;> rfl

theorem updateStats_by_pattern (s : Stats) (e : LogEntry) :
    (updateStats s e).by_pattern =
      match e.extra_patterns with
      | some ps => ps.foldl dictBump s.by_pattern
      | none => s.by_pattern := by
  unfold updateStats
  cases e.extra_patterns <;> rfl

theorem detector_names_nodup (msg : List Char) (ps : List (List Char))
    (h : PatternDetector.process msg = some ps) : ps.Nodup := by
  have h' : (if ((PatternDetector.patterns.filter (fun p => p.2 msg)).map
          (fun p => p.1)).isEmpty then (none : Option (List (List Char)))
        else some ((PatternDetector.patterns.filter (fun p => p.2 msg)).map
          (fun p => p.1))) = some ps := h
  by_cases hd : ((PatternDetector.patterns.filter (fun p => p.2 msg)).map
      (fun p => p.1)).isEmpty
  · rw [if_pos hd] at h'
    exact absurd h' (by simp)
  · rw [if_neg hd] at h'
    have hps := Option.some.inj h'
    rw [← hps]
    have hsub : List.Sublist
        ((PatternDetector.patterns.filter (fun p => p.2 msg)).map (fun p => p.1))
        (PatternDetector.patterns.map (fun p => p.1)) :=
      (List.filter_sublist PatternDetector.patterns).map
        (fun p : List Char × (List Char → Bool) => p.1)
    have hnodup : (PatternDetector.patterns.map (fun p => p.1)).Nodup := by
      decide
    exact hnodup.sublist hsub

/-- C8: processing one entry updates the statistics as a pure fold —
`total_logs` rises by exactly 1, the per-level count of the post-pipeline
level rises by exactly 1, and the per-pattern count of every pattern name
detected on the entry rises by exactly 1; moreover no counter ever
decreases across a processing step. -/
theorem C8_stats_pure_fold :
    (∀ (st : LoggerState) (e : LogEntry),
      (MeowLogger.processAndStore st e).stats.total_logs =
        st.stats.total_logs + 1) ∧
    (∀ (st : LoggerState) (e : LogEntry),
      dictGetD (MeowLogger.processAndStore st e).stats.by_level
          (runPipeline e).level =
        dictGetD st.stats.by_level (runPipeline e).level + 1) ∧
    (∀ (st : LoggerState) (e : LogEntry) (ps : List (List Char)),
      e.extra_patterns = none →
      PatternDetector.process e.message = some ps →
      ∀ p ∈ ps,
        dictGetD (MeowLogger.processAndStore st e).stats.by_pattern p =
          dictGetD st.stats.by_pattern p + 1) ∧
    (∀ (st : LoggerState) (e : LogEntry) (k : List Char),
      dictGetD st.stats.by_level k ≤
        dictGetD (MeowLogger.processAndStore st e).stats.by_level k ∧
      dictGetD st.stats.by_pattern k ≤
        dictGetD (MeowLogger.processAndStore st e).stats.by_pattern k ∧
      st.stats.total_logs ≤
        (MeowLogger.processAndStore st e).stats.total_logs) := by
  refine ⟨?_, ?_, ?_, ?_⟩
  · intro st e
    rw [processAndStore_stats, updateStats_total]
  · intro st e
    rw [processAndStore_stats, updateStats_by_level, dictGetD_bump]
    simp
  · intro st e ps hnone hdet p hp
    have hextra : (runPipeline e).extra_patterns = some ps := by
      rw [runPipeline_extra, hdet]
    rw [processAndStore_stats, updateStats_by_pattern, hextra]
    exact dictGetD_foldl_bump_of_nodup ps st.stats.by_pattern p
      (detector_names_nodup e.message ps hdet) hp
  · intro st e k
    refine ⟨?_, ?_, ?_⟩
    · rw [processAndStore_stats, updateStats_by_level]
      exact dictGetD_le_bump st.stats.by_level (runPipeline e).level k
    · rw [processAndStore_stats, updateStats_by_pattern]
      cases hpat : (runPipeline e).extra_patterns with
      | none => exact Nat.le_refl _
      | some ps => exact dictGetD_le_foldl_bump ps st.stats.by_pattern k
    · rw [processAndStore_stats, updateStats_total]
      omega

/-- C8 witness: logging the bare message `"failed"` bumps the `"error"`
pattern counter from 0 to 1. -/
theorem C8_stats_pure_fold_witness :
    dictGetD (MeowLogger.processAndStore
        ⟨⟨0, [], []⟩, 100, []⟩
        { timestamp := 0, level := "INFO".toList,
          message := "failed".toList }).stats.by_pattern "error".toList =
      dictGetD ([] : List (List Char × Nat)) "error".toList + 1 :=
  C8_stats_pure_fold.2.2.1 ⟨⟨0, [], []⟩, 100, []⟩
    { timestamp := 0, level := "INFO".toList, message := "failed".toList }
    ["error".toList] rfl (by decide) "error".toList (by decide)

theorem pathExists_of_isFile (fs : Fs) (p : List Char)
    (h : isFile fs p = true) : pathExists fs p = true := by
  unfold isFile at h
  unfold pathExists
  cases hf : fsLookup fs p with
  | none => rw [hf] at h; simp at h
  | some n => simp

/-- C9: `MeowLogger.watch(path)` raises the distinguishable
`ValueError("Path does not exist: ...")` exactly when `path` is neither an
existing file nor an existing directory (the raise happens before any
mutation, so the watched-file set is untouched); an existing file is
registered at its current size, and an existing directory registers the
glob matches found at call time. -/
theorem C9_watch_invalid_path_error :
    ∀ (fs : Fs) (w : FileWatcher) (path : List Char),
      ((∃ msg, MeowLogger.watch fs w path = Except.error msg) ↔
        (isFile fs path = false ∧ isDir fs path = false)) ∧
      (isFile fs path = false → isDir fs path = false →
        MeowLogger.watch fs w path =
          Except.error ("Path does not exist: ".toList ++ path)) ∧
      (isFile fs path = true →
        MeowLogger.watch fs w path =
          Except.ok (FileWatcher.watch_file fs w path) ∧
        (FileWatcher.watch_file fs w path).watched_files =
          dictSetNat w.watched_files path (getSize fs path)) ∧
      (isFile fs path = false → isDir fs path = true →
        MeowLogger.watch fs w path =
          Except.ok (FileWatcher.watch_directory fs w path)) := by
  intro fs w path
  cases hf : isFile fs path with
  | true =>
    have hw : MeowLogger.watch fs w path =
        Except.ok (FileWatcher.watch_file fs w path) := by
      unfold MeowLogger.watch
      simp [hf]
    refine ⟨?_, ?_, ?_, ?_⟩
    · constructor
      · rintro ⟨msg, hmsg⟩
        rw [hw] at hmsg
        exact absurd hmsg (by simp)
      · rintro ⟨h1, _⟩
        exact absurd h1 (by simp)
    · intro h1 _
      exact absurd h1 (by simp)
    · intro _
      refine ⟨hw, ?_⟩
      unfold FileWatcher.watch_file
      simp [pathExists_of_isFile fs path hf]
    · intro h1 _
      exact absurd h1 (by simp)
  | false =>
    cases hd : isDir fs path with
    | true =>
      have hw : MeowLogger.watch fs w path =
          Except.ok (FileWatcher.watch_directory fs w path) := by
        unfold MeowLogger.watch
        simp [hf, hd]
      refine ⟨?_, ?_, ?_, ?_⟩
      · constructor
        · rintro ⟨msg, hmsg⟩
          rw [hw] at hmsg
          exact absurd hmsg (by simp)
        · rintro ⟨_, h2⟩
          exact absurd h2 (by simp)
      · intro _ h2
        exact absurd h2 (by simp)
      · intro h1
        exact absurd h1 (by simp)
      · intro _ _
        exact hw
    | false =>
      have hw : MeowLogger.watch fs w path =
          Except.error ("Path does not exist: ".toList ++ path) := by
        unfold MeowLogger.watch
        simp [hf, hd]
      refine ⟨?_, ?_, ?_, ?_⟩
      · constructor
        · intro _
          exact ⟨rfl, rfl⟩
        · intro _
          exact ⟨_, hw⟩
      · intro _ _
        exact hw
      · intro h1
        exact absurd h1 (by simp)
      · intro _ h2
        exact absurd h2 (by simp)

/-- C9 witness: watching an existing file registers that file at its
size. -/
theorem C9_watch_invalid_path_error_witness :
    MeowLogger.watch [("a.log".toList, FsNode.file "xy".toList)] ⟨[], []⟩
        "a.log".toList =
      Except.ok (FileWatcher.watch_file
        [("a.log".toList, FsNode.file "xy".toList)] ⟨[], []⟩
        "a.log".toList) :=
  ((C9_watch_invalid_path_error
      [("a.log".toList, FsNode.file "xy".toList)] ⟨[], []⟩
      "a.log".toList).2.2.1 (by decide)).1

theorem fget_filter_used (f : Filters) (k : List Char)
    (hk : filterKeyUsed k = true) :
    fget (f.filter (fun p => filterKeyUsed p.1)) k = fget f k := by
  induction f with
  | nil => rfl
  | cons q rest ih =>
    by_cases hq : filterKeyUsed q.1
    · rw [List.filter_cons]
      simp only [hq, if_true]
      unfold fget
      by_cases hqk : q.1 = k
      · simp [hqk]
      · simp [hqk, ih]
    · have hq' : filterKeyUsed q.1 = false := by simpa using hq
      rw [List.filter_cons]
      simp only [hq', Bool.false_eq_true, if_false]
      have hqk : ¬ q.1 = k := by
        intro h
        exact hq (by rw [h]; exact hk)
      rw [ih]
      conv_rhs => unfold fget
      rw [if_neg hqk]

theorem matchesFilters_restrict (f : Filters) (e : LogEntry) :
    matchesFilters (f.filter (fun p => filterKeyUsed p.1)) e =
      matchesFilters f e := by
  unfold matchesFilters
  rw [fget_filter_used f _ (by decide), fget_filter_used f _ (by decide),
    fget_filter_used f _ (by decide)]

theorem collect_congr (f1 f2 : Filters)
    (h : ∀ e, matchesFilters f1 e = matchesFilters f2 e) :
    ∀ (b : Nat) (l : List LogEntry),
      MemoryStorage.collect f1 b l = MemoryStorage.collect f2 b l := by
  intro b l
  induction l generalizing b with
  | nil => rfl
  | cons e rest ih =>
    unfold MemoryStorage.collect
    rw [h e]
    by_cases hm : matchesFilters f2 e
    · simp only [hm, if_true]
      by_cases hb : b ≤ 1
      · simp [hb]
      · simp [hb, ih]
    · simp only [hm, Bool.false_eq_true, if_false]
      exact ih b

/-- C10: `get_logs` passes its whole kwargs dict — a `limit` key included —
as the `filters` mapping and always retrieves with the backend's default
limit of 100; keys outside `level`/`search`/`file_path` are silently
ignored (dropping them never changes the result), and `get_logs(limit=5)`
over six stored entries returns all six. -/
theorem C10_get_logs_kwargs_forwarded :
    (∀ (st : LoggerState) (filters : Filters),
      MeowLogger.get_logs st filters =
        MemoryStorage.retrieve st.entries filters 100) ∧
    (∀ (st : LoggerState) (filters : Filters),
      MeowLogger.get_logs st filters =
        MeowLogger.get_logs st
          (filters.filter (fun p => filterKeyUsed p.1))) ∧
    (∀ (st : LoggerState) (filters : Filters),
      (MeowLogger.get_logs st filters).length ≤ 100) ∧
    (MeowLogger.get_logs
        ⟨⟨0, [], []⟩, 10000,
          [sampleEntry 1, sampleEntry 2, sampleEntry 3, sampleEntry 4,
           sampleEntry 5, sampleEntry 6]⟩
        [("limit".toList, FVal.vnat 5)] =
      [sampleEntry 6, sampleEntry 5, sampleEntry 4, sampleEntry 3,
       sampleEntry 2, sampleEntry 1]) := by
  refine ⟨fun st filters => rfl, ?_, ?_, ?_⟩
  · intro st filters
    unfold MeowLogger.get_logs MemoryStorage.retrieve
    exact (collect_congr _ _
      (fun e => matchesFilters_restrict filters e) 100 st.entries.reverse).symm
  · intro st filters
    unfold MeowLogger.get_logs MemoryStorage.retrieve
    exact collect_length_le filters 100 st.entries.reverse (by omega)
  · rfl

end MeowLog
